import Mathlib

/-!
Verification development for the YouTube/TikTok trends data pipeline
(scripts 01_ingest_data.py, 02_process_data.py, 03_analyze_data.py).

The pipeline manipulates pandas DataFrames.  We embed a DataFrame as a
`Frame`: an ordered list of column names together with row-major cell data.
A cell (`Value`) is a finite number (modelled exactly by `ℚ`), a string, a
datetime (`date`), the missing marker (`null`, covering both NaN and NaT),
or a non-finite float (`nonfinite`, covering the ±inf produced by pandas
division by zero; the 0/0 case produces NaN, i.e. `null`).

Arithmetic on non-numeric operands (e.g. dividing a string column) raises
in pandas; those combinations are outside the fragment exercised by the
pipeline and the theorems below restrict the relevant columns to numeric
cells, so the junk value chosen for them (`null`) is never relied upon.
-/

inductive Value where
  | num (q : ℚ)
  | str (s : String)
  | date (t : ℤ)
  | null
  | nonfinite
  deriving DecidableEq, Repr

structure Frame where
  columns : List String
  rows : List (List Value)
  deriving DecidableEq, Repr

/-- `startsWithChars pat s`: the character list `pat` starts the list `s`. -/
def startsWithChars : List Char → List Char → Bool
  | [], _ => true
  | _ :: _, [] => false
  | a :: as, b :: bs => a == b && startsWithChars as bs

/-- `containsSubChars pat s`: `pat` occurs contiguously inside `s`. -/
def containsSubChars (pat : List Char) : List Char → Bool
  | [] => startsWithChars pat []
  | b :: bs => startsWithChars pat (b :: bs) || containsSubChars pat bs

/-- Python `pat in s` on strings: contiguous-substring containment. -/
def containsSub (s pat : String) : Bool :=
  containsSubChars pat.data s.data

/-- Python `str.lower()` restricted to the ASCII names the pipeline uses. -/
def strLower (s : String) : String :=
  String.mk (s.data.map Char.toLower)

/-- Cell access with pandas-style missing default for ragged rows. -/
def cellAt (r : List Value) (i : Nat) : Value :=
  r.getD i Value.null

/-- Index of the first column with the given name, as pandas name lookup. -/
def idxOf? (c : String) : List String → Option Nat
  | [] => none
  | a :: rest => if a = c then some 0 else (idxOf? c rest).map (· + 1)

/-- `df[c]`: the column named `c` as a list of cells, when it exists. -/
def getCol (df : Frame) (c : String) : Option (List Value) :=
  (idxOf? c df.columns).map (fun i => df.rows.map (fun r => cellAt r i))

/-- The cells of column `c` (empty when the column is absent). -/
def colVals (df : Frame) (c : String) : List Value :=
  (getCol df c).getD []

/-- `df[c] = vals`: overwrite the column if present, else append it. -/
def setCol (df : Frame) (c : String) (vals : List Value) : Frame :=
  match idxOf? c df.columns with
  | some i => ⟨df.columns, (df.rows.zip vals).map (fun rv => rv.1.set i rv.2)⟩
  | none => ⟨df.columns ++ [c], (df.rows.zip vals).map (fun rv => rv.1 ++ [rv.2])⟩

/-- `Series.replace(0, 1)` on a cell: zeros become one, all else kept. -/
def replaceZeroOne (v : Value) : Value :=
  if v = Value.num 0 then Value.num 1 else v

/-- Elementwise pandas `+` on numeric cells. -/
def valAdd : Value → Value → Value
  | Value.num a, Value.num b => Value.num (a + b)
  | _, _ => Value.null

/-- Elementwise pandas `/`: a nonzero number over zero gives ±inf
(`nonfinite`), `0/0` gives NaN (`null`), otherwise exact division. -/
def valDiv : Value → Value → Value
  | Value.num a, Value.num b =>
      if b = 0 then (if a = 0 then Value.null else Value.nonfinite)
      else Value.num (a / b)
  | _, _ => Value.null

/-- `df[n] / df[d].replace(0, 1)`, the guarded ratio of 02_process_data.py. -/
def safeRatioVals (df : Frame) (numc denc : String) : List Value :=
  List.zipWith valDiv (colVals df numc) ((colVals df denc).map replaceZeroOne)

/-- The youtube branch of `feature_engineering` (02_process_data.py lines
101-105): each derived column is guarded by existence of both source
columns and computed from the frame as already mutated by the preceding
assignment. -/
def youtubeFeatures (df : Frame) : Frame :=
  let d1 := if "views" ∈ df.columns ∧ "subscribers" ∈ df.columns then
      setCol df "views_per_subscriber" (safeRatioVals df "views" "subscribers")
    else df
  if "likes" ∈ d1.columns ∧ "views" ∈ d1.columns then
    setCol d1 "like_rate" (safeRatioVals d1 "likes" "views")
  else d1

/-- The tiktok branch of `feature_engineering` (lines 106-110). -/
def tiktokFeatures (df : Frame) : Frame :=
  let d1 := if "likes" ∈ df.columns ∧ "followers" ∈ df.columns then
      setCol df "likes_per_follower" (safeRatioVals df "likes" "followers")
    else df
  if "shares" ∈ d1.columns ∧ "followers" ∈ d1.columns then
    setCol d1 "shares_per_follower" (safeRatioVals d1 "shares" "followers")
  else d1

/-- `feature_engineering` from 02_process_data.py lines 100-111: substring
dispatch on the table name, youtube branch first, tiktok as `elif`. -/
def feature_engineering (df : Frame) (table_name : String) : Frame :=
  if containsSub table_name "youtube" then youtubeFeatures df
  else if containsSub table_name "tiktok" then tiktokFeatures df
  else df

example : containsSub "youtube_data" "youtube" = true := by decide
example : containsSub "youtube_tiktok" "tiktok" = true := by decide
example : containsSub "other" "youtube" = false := by decide

/-! ### Generic list lemmas -/

theorem getD_set_ne {α : Type} (l : List α) (i j : Nat) (v d : α) (h : i ≠ j) :
    (l.set i v).getD j d = l.getD j d := by
  induction l generalizing i j with
  | nil => simp [List.set]
  | cons a t ih =>
    cases i with
    | zero =>
      cases j with
      | zero => exact absurd rfl h
      | succ j => simp [List.set]
    | succ i =>
      cases j with
      | zero => simp [List.set]
      | succ j => simpa [List.set] using ih i j (by omega)

theorem getD_set_self {α : Type} (l : List α) (i : Nat) (v d : α)
    (h : i < l.length) : (l.set i v).getD i d = v := by
  induction l generalizing i with
  | nil => simp at h
  | cons a t ih =>
    cases i with
    | zero => simp [List.set]
    | succ i => simpa [List.set] using ih i (by simpa using h)

theorem set_of_length_le {α : Type} (l : List α) (i : Nat) (v : α)
    (h : l.length ≤ i) : l.set i v = l := by
  induction l generalizing i with
  | nil => simp
  | cons a t ih =>
    cases i with
    | zero => simp at h
    | succ i => simpa [List.set] using ih i (by simpa using h)

theorem getD_append_left {α : Type} (l l' : List α) (i : Nat) (d : α)
    (h : i < l.length) : (l ++ l').getD i d = l.getD i d := by
  induction l generalizing i with
  | nil => simp at h
  | cons a t ih =>
    cases i with
    | zero => simp
    | succ i => simpa using ih i (by simpa using h)

theorem zipWith_fun_congr {α β γ : Type} (f g : α → β → γ)
    (h : ∀ a b, f a b = g a b) :
    ∀ (l : List α) (l' : List β), List.zipWith f l l' = List.zipWith g l l'
  | [], _ => by simp
  | _ :: _, [] => by simp
  | a :: l, b :: l' => by
    simp [List.zipWith, h a b, zipWith_fun_congr f g h l l']

/-! ### Column-lookup lemmas -/

theorem idxOf?_eq_none_iff (c : String) (cols : List String) :
    idxOf? c cols = none ↔ c ∉ cols := by
  induction cols with
  | nil => simp [idxOf?]
  | cons a rest ih =>
    by_cases hac : a = c
    · subst hac; simp [idxOf?]
    · simp [idxOf?, hac, Option.map_eq_none', ih, Ne.symm hac]

theorem idxOf?_isSome_of_mem (c : String) (cols : List String) (h : c ∈ cols) :
    ∃ i, idxOf? c cols = some i := by
  cases hi : idxOf? c cols with
  | none => exact absurd ((idxOf?_eq_none_iff c cols).mp hi) (by simp [h])
  | some i => exact ⟨i, rfl⟩

theorem idxOf?_lt_length (c : String) (cols : List String) (i : Nat)
    (h : idxOf? c cols = some i) : i < cols.length := by
  induction cols generalizing i with
  | nil => simp [idxOf?] at h
  | cons a rest ih =>
    rw [idxOf?] at h
    by_cases hac : a = c
    · rw [if_pos hac] at h
      cases h
      simp
    · rw [if_neg hac, Option.map_eq_some'] at h
      obtain ⟨j, hj, hji⟩ := h
      subst hji
      have := ih j hj
      simp only [List.length_cons]
      omega

theorem idxOf?_getD (c : String) (cols : List String) (i : Nat) (d : String)
    (h : idxOf? c cols = some i) : cols.getD i d = c := by
  induction cols generalizing i with
  | nil => simp [idxOf?] at h
  | cons a rest ih =>
    rw [idxOf?] at h
    by_cases hac : a = c
    · rw [if_pos hac] at h
      cases h
      simpa using hac
    · rw [if_neg hac, Option.map_eq_some'] at h
      obtain ⟨j, hj, hji⟩ := h
      subst hji
      simpa using ih j hj

theorem idxOf?_append_single_ne (c c' : String) (cols : List String)
    (hne : c' ≠ c) : idxOf? c' (cols ++ [c]) = idxOf? c' cols := by
  induction cols with
  | nil => simp [idxOf?, Ne.symm hne]
  | cons a rest ih => simp [idxOf?, ih]

theorem idxOf?_append_single_self (c : String) (cols : List String)
    (h : c ∉ cols) : idxOf? c (cols ++ [c]) = some cols.length := by
  induction cols with
  | nil => simp [idxOf?]
  | cons a rest ih =>
    have hac : a ≠ c := by rintro rfl; simp at h
    have : c ∉ rest := by intro hc; exact h (List.mem_cons_of_mem _ hc)
    simp [idxOf?, hac, ih this]

theorem mem_of_getCol_some (df : Frame) (c : String) (vs : List Value)
    (h : getCol df c = some vs) : c ∈ df.columns := by
  by_contra hmem
  rw [getCol, (idxOf?_eq_none_iff c df.columns).mpr hmem] at h
  simp at h

theorem getCol_length (df : Frame) (c : String) (vs : List Value)
    (h : getCol df c = some vs) : vs.length = df.rows.length := by
  rw [getCol, Option.map_eq_some'] at h
  obtain ⟨i, _, hvs⟩ := h
  subst hvs
  simp

theorem colVals_eq_of_getCol (df : Frame) (c : String) (vs : List Value)
    (h : getCol df c = some vs) : colVals df c = vs := by
  simp [colVals, h]

theorem colVals_length_of_mem (df : Frame) (c : String) (h : c ∈ df.columns) :
    (colVals df c).length = df.rows.length := by
  obtain ⟨i, hi⟩ := idxOf?_isSome_of_mem c df.columns h
  simp [colVals, getCol, hi]

theorem safeRatioVals_length (df : Frame) (a b : String)
    (ha : a ∈ df.columns) (hb : b ∈ df.columns) :
    (safeRatioVals df a b).length = df.rows.length := by
  simp [safeRatioVals, colVals_length_of_mem df a ha, colVals_length_of_mem df b hb]

/-- Reading back the column just written by `setCol`, on rectangular data. -/
theorem getCol_setCol_self (df : Frame) (c : String) (vals : List Value)
    (hwf : ∀ r ∈ df.rows, r.length = df.columns.length)
    (hlen : vals.length = df.rows.length) :
    getCol (setCol df c vals) c = some vals := by
  rw [setCol]
  cases hidx : idxOf? c df.columns with
  | some i =>
    have hi : i < df.columns.length := idxOf?_lt_length c df.columns i hidx
    simp only [getCol, hidx, Option.map_some', Option.some_inj]
    apply List.ext_getElem
    · simp [List.length_zip, hlen]
    · intro j h1 h2
      simp only [List.getElem_map, List.getElem_zip, cellAt]
      have hrow : df.rows[j].length = df.columns.length :=
        hwf _ (List.getElem_mem _)
      exact getD_set_self _ i _ _ (by rw [hrow]; exact hi)
  | none =>
    have hmem : c ∉ df.columns := (idxOf?_eq_none_iff c df.columns).mp hidx
    simp only [getCol, idxOf?_append_single_self c df.columns hmem,
      Option.map_some', Option.some_inj]
    apply List.ext_getElem
    · simp [List.length_zip, hlen]
    · intro j h1 h2
      simp only [List.getElem_map, List.getElem_zip, cellAt]
      have hrow : df.rows[j].length = df.columns.length :=
        hwf _ (List.getElem_mem _)
      rw [List.getD_eq_getElem?_getD]
      rw [List.getElem?_append_right (by omega)]
      simp [hrow]

/-- `setCol` preserves rectangularity. -/
theorem setCol_wf (df : Frame) (c : String) (vals : List Value)
    (hwf : ∀ r ∈ df.rows, r.length = df.columns.length) :
    ∀ r ∈ (setCol df c vals).rows, r.length = (setCol df c vals).columns.length := by
  rw [setCol]
  cases hidx : idxOf? c df.columns with
  | some i =>
    intro r hr
    simp only [List.mem_map] at hr
    obtain ⟨⟨r0, v⟩, hmem, rfl⟩ := hr
    have h0 : r0 ∈ df.rows := (List.of_mem_zip hmem).1
    simp [List.length_set, hwf r0 h0]
  | none =>
    intro r hr
    simp only [List.mem_map] at hr
    obtain ⟨⟨r0, v⟩, hmem, rfl⟩ := hr
    have h0 : r0 ∈ df.rows := (List.of_mem_zip hmem).1
    simp [hwf r0 h0]

/-- `setCol` keeps the row count when the new column fits the frame. -/
theorem setCol_rows_length (df : Frame) (c : String) (vals : List Value)
    (hlen : vals.length = df.rows.length) :
    (setCol df c vals).rows.length = df.rows.length := by
  rw [setCol]
  cases hidx : idxOf? c df.columns with
  | some i => simp [List.length_zip, hlen]
  | none => simp [List.length_zip, hlen]

/-- `setCol` leaves every other column unchanged, on rectangular data. -/
theorem getCol_setCol_ne (df : Frame) (c c' : String) (vals : List Value)
    (hwf : ∀ r ∈ df.rows, r.length = df.columns.length)
    (hlen : vals.length = df.rows.length) (hne : c' ≠ c) :
    getCol (setCol df c vals) c' = getCol df c' := by
  rw [setCol]
  cases hidx : idxOf? c df.columns with
  | some i =>
    simp only [getCol]
    cases hidx' : idxOf? c' df.columns with
    | none => simp
    | some j =>
      have hij : i ≠ j := by
        intro h
        subst h
        have h1 := idxOf?_getD c df.columns i "" hidx
        have h2 := idxOf?_getD c' df.columns i "" hidx'
        exact hne (h2.symm.trans h1)
      simp only [Option.map_some', Option.some_inj]
      apply List.ext_getElem
      · simp [List.length_zip, hlen]
      · intro k h1 h2
        simp only [List.getElem_map, List.getElem_zip, cellAt]
        exact getD_set_ne _ i j _ _ hij
  | none =>
    simp only [getCol, idxOf?_append_single_ne c c' df.columns hne]
    cases hidx' : idxOf? c' df.columns with
    | none => simp
    | some j =>
      have hj : j < df.columns.length := idxOf?_lt_length c' df.columns j hidx'
      simp only [Option.map_some', Option.some_inj]
      apply List.ext_getElem
      · simp [List.length_zip, hlen]
      · intro k h1 h2
        have hk : k < df.rows.length := by simpa using h2
        simp only [List.getElem_map, List.getElem_zip, cellAt]
        have hrow : df.rows[k].length = df.columns.length :=
          hwf _ (List.getElem_mem hk)
        exact getD_append_left _ _ j _ (by rw [hrow]; exact hj)


theorem replaceZeroOne_num (b : ℚ) :
    replaceZeroOne (Value.num b) = Value.num (if b = 0 then 1 else b) := by
  by_cases hb : b = 0 <;> simp [replaceZeroOne, hb]

theorem valDiv_num_safe (a b : ℚ) :
    valDiv (Value.num a) (Value.num (if b = 0 then 1 else b)) =
      Value.num (a / (if b = 0 then 1 else b)) := by
  by_cases hb : b = 0 <;> simp [valDiv, hb]

/-- The guarded ratio column, on numeric columns, elementwise. -/
theorem safeRatioVals_num (df : Frame) (a b : String) (vs ss : List ℚ)
    (hv : getCol df a = some (vs.map Value.num))
    (hs : getCol df b = some (ss.map Value.num)) :
    safeRatioVals df a b =
      List.zipWith (fun x y => Value.num (x / (if y = 0 then 1 else y))) vs ss := by
  rw [safeRatioVals, colVals_eq_of_getCol df a _ hv, colVals_eq_of_getCol df b _ hs,
    List.map_map]
  have h1 : (replaceZeroOne ∘ Value.num) = fun y : ℚ =>
      Value.num (if y = 0 then 1 else y) := by
    funext y
    exact replaceZeroOne_num y
  rw [h1, List.zipWith_map]
  exact zipWith_fun_congr _ _ (fun x y => valDiv_num_safe x y) vs ss

/-- C1: for every dataset whose name contains "youtube" with numeric `views`
and `subscribers` columns, feature engineering adds a `views_per_subscriber`
column equal to `views / replace(subscribers, 0 -> 1)` elementwise, and the
denominator used in each ratio is never zero. -/
theorem C01_youtube_views_per_subscriber (df : Frame) (name : String)
    (vs ss : List ℚ)
    (hwf : ∀ r ∈ df.rows, r.length = df.columns.length)
    (hname : containsSub name "youtube" = true)
    (hv : getCol df "views" = some (vs.map Value.num))
    (hs : getCol df "subscribers" = some (ss.map Value.num)) :
    getCol (feature_engineering df name) "views_per_subscriber" =
      some (List.zipWith (fun a b => Value.num (a / (if b = 0 then 1 else b))) vs ss)
    ∧ ∀ b ∈ ss, (if b = (0 : ℚ) then (1 : ℚ) else b) ≠ 0 := by
  have hvm := mem_of_getCol_some df "views" _ hv
  have hsm := mem_of_getCol_some df "subscribers" _ hs
  have hg1 : ("views" ∈ df.columns ∧ "subscribers" ∈ df.columns) := ⟨hvm, hsm⟩
  have hlen1 : (safeRatioVals df "views" "subscribers").length = df.rows.length :=
    safeRatioVals_length df _ _ hvm hsm
  constructor
  · rw [feature_engineering, if_pos hname, youtubeFeatures]
    simp only [if_pos hg1]
    set d1 := setCol df "views_per_subscriber" (safeRatioVals df "views" "subscribers")
      with hd1
    have hwf1 : ∀ r ∈ d1.rows, r.length = d1.columns.length :=
      setCol_wf df _ _ hwf
    have hbase : getCol d1 "views_per_subscriber" =
        some (safeRatioVals df "views" "subscribers") :=
      getCol_setCol_self df _ _ hwf hlen1
    have hstep : getCol
        (if "likes" ∈ d1.columns ∧ "views" ∈ d1.columns then
          setCol d1 "like_rate" (safeRatioVals d1 "likes" "views")
        else d1) "views_per_subscriber" =
        getCol d1 "views_per_subscriber" := by
      by_cases hg2 : ("likes" ∈ d1.columns ∧ "views" ∈ d1.columns)
      · rw [if_pos hg2]
        exact getCol_setCol_ne d1 "like_rate" "views_per_subscriber" _ hwf1
          (safeRatioVals_length d1 _ _ hg2.1 hg2.2) (by decide)
      · rw [if_neg hg2]
    rw [hstep, hbase, safeRatioVals_num df _ _ vs ss hv hs]
  · intro b _
    by_cases hb : b = 0 <;> simp [hb]

/-- Witness for C1: Example 1 of the spec, `views=[100,200]`,
`subscribers=[0,50]` giving `views_per_subscriber=[100, 4]`. -/
theorem C01_witness :
    getCol (feature_engineering
      ⟨["views", "subscribers"],
       [[Value.num 100, Value.num 0], [Value.num 200, Value.num 50]]⟩
      "youtube_data") "views_per_subscriber" =
    some [Value.num 100, Value.num 4] := by
  have h := C01_youtube_views_per_subscriber
    ⟨["views", "subscribers"],
     [[Value.num 100, Value.num 0], [Value.num 200, Value.num 50]]⟩
    "youtube_data" [100, 200] [0, 50]
    (by decide) (by decide) (by decide) (by decide)
  rw [h.1]
  norm_num [List.zipWith]

/-! ### Cleaning (02_process_data.py lines 73-96) -/

def isNullVal : Value → Bool
  | Value.null => true
  | _ => false

def isStrVal : Value → Bool
  | Value.str _ => true
  | _ => false

/-- `df.dropna(how='all')`: drop rows whose every cell is missing. -/
def dropAllNullRows (rows : List (List Value)) : List (List Value) :=
  rows.filter (fun r => !(r.all isNullVal))

/-- `df.fillna(0)`: replace each remaining missing cell by the number 0. -/
def fillZero (rows : List (List Value)) : List (List Value) :=
  rows.map (fun r => r.map (fun v => if isNullVal v then Value.num 0 else v))

/-- `df.drop_duplicates()`: keep the first occurrence of each element. -/
def dedupAux {α : Type} [DecidableEq α] (seen : List α) : List α → List α
  | [] => []
  | r :: rs => if r ∈ seen then dedupAux seen rs else r :: dedupAux (r :: seen) rs

def dedupKeepFirst {α : Type} [DecidableEq α] (rows : List α) : List α :=
  dedupAux [] rows

/-- `clean_dataframe` from 02_process_data.py lines 73-81; the trailing
`reset_index(drop=True)` is implicit in the list representation of rows. -/
def clean_dataframe (df : Frame) : Frame :=
  ⟨df.columns, dedupKeepFirst (fillZero (dropAllNullRows df.rows))⟩

def isDigitChar (c : Char) : Bool :=
  '0' ≤ c && c ≤ '9'

def digitsToNat (cs : List Char) : Nat :=
  cs.foldl (fun n c => n * 10 + (c.toNat - '0'.toNat)) 0

/-- Split a character list on the dash character. -/
def splitOnDash : List Char → List (List Char)
  | [] => [[]]
  | c :: rest =>
    if c = '-' then [] :: splitOnDash rest
    else
      match splitOnDash rest with
      | [] => [[c]]
      | g :: gs => (c :: g) :: gs

/-- Calendar-date parser standing for the date formats `pd.to_datetime`
accepts: ISO `YYYY-MM-DD` parses, anything else fails.  A parsed date is
encoded as the integer `y * 10000 + m * 100 + d`; the encoding is injective
on calendar dates, which is all the pipeline observes of the value. -/
def parseDate (s : String) : Option ℤ :=
  match splitOnDash s.data with
  | [y, m, d] =>
    if y ≠ [] ∧ y.all isDigitChar ∧ m ≠ [] ∧ m.all isDigitChar ∧
        d ≠ [] ∧ d.all isDigitChar then
      if 1 ≤ digitsToNat m ∧ digitsToNat m ≤ 12 ∧
          1 ≤ digitsToNat d ∧ digitsToNat d ≤ 31 then
        some ((digitsToNat y : ℤ) * 10000 + digitsToNat m * 100 + digitsToNat d)
      else none
    else none
  | _ => none

/-- `pd.to_datetime(cell, errors='coerce')`: strings parse to a timestamp
or become NaT; numbers are read as epoch offsets, hence valid timestamps;
timestamps pass through; NaN and non-finite floats coerce to NaT. -/
def coerceValue : Value → Value
  | Value.str s =>
    match parseDate s with
    | some t => Value.date t
    | none => Value.null
  | Value.num q => Value.date ⌊q⌋
  | Value.date t => Value.date t
  | Value.null => Value.null
  | Value.nonfinite => Value.null

/-- A column has pandas `object` dtype when it still holds strings. -/
def isObjectCol (cells : List Value) : Bool :=
  cells.any isStrVal

def colCells (rows : List (List Value)) (i : Nat) : List Value :=
  rows.map (fun r => cellAt r i)

/-- The column indices `correct_data_types` touches: the
`select_dtypes(include=['object'])` columns whose lowercased name contains
"date". -/
def dateObjectCols (df : Frame) : List Nat :=
  (List.range df.columns.length).filter (fun i =>
    containsSub (strLower (df.columns.getD i "")) "date" &&
    isObjectCol (colCells df.rows i))

def coerceRowFold (r : List Value) (idxs : List Nat) : List Value :=
  idxs.foldl (fun r i => r.set i (coerceValue (cellAt r i))) r

/-- `correct_data_types` from 02_process_data.py lines 84-88.  The source
loops over the selected column names assigning `pd.to_datetime(df[col])`;
selected columns are independent, so this is the per-row fold of the
per-column coercions. -/
def correct_data_types (df : Frame) : Frame :=
  ⟨df.columns, df.rows.map (fun r => coerceRowFold r (dateObjectCols df))⟩

/-- One table's pass through the cleaning stage (lines 92-94):
`clean_dataframe` then `correct_data_types`. -/
def cleanStage (df : Frame) : Frame :=
  correct_data_types (clean_dataframe df)

example : parseDate "2020-01-03" = some 20200103 := by decide
example : parseDate "garbage" = none := by decide
example : parseDate "2020-13-03" = none := by decide
example :
    cleanStage ⟨["date"], [[Value.str "garbage"]]⟩ =
      ⟨["date"], [[Value.null]]⟩ := by decide
example :
    cleanStage (cleanStage ⟨["date"], [[Value.str "garbage"]]⟩) =
      ⟨["date"], []⟩ := by decide

/-! ### Cleaning-stage lemmas -/

theorem isNullVal_eq_false (v : Value) (h : v ≠ Value.null) :
    isNullVal v = false := by
  cases v <;> simp [isNullVal] at h ⊢

theorem coerceValue_not_str (v : Value) :
    isStrVal (coerceValue v) = false := by
  cases v <;> simp only [coerceValue, isStrVal]
  case str s => cases parseDate s <;> simp [isStrVal]

theorem dedupAux_subset {α : Type} [DecidableEq α] (l : List α) :
    ∀ (seen : List α), ∀ r ∈ dedupAux seen l, r ∈ l := by
  induction l with
  | nil => intro seen r hr; simp [dedupAux] at hr
  | cons a t ih =>
    intro seen r hr
    rw [dedupAux] at hr
    by_cases ha : a ∈ seen
    · rw [if_pos ha] at hr
      exact List.mem_cons_of_mem _ (ih seen r hr)
    · rw [if_neg ha] at hr
      rcases List.mem_cons.mp hr with h | h
      · exact h ▸ List.mem_cons_self a t
      · exact List.mem_cons_of_mem _ (ih _ r h)

theorem dedupAux_eq_self {α : Type} [DecidableEq α] (l : List α) :
    ∀ (seen : List α), l.Nodup → (∀ a ∈ l, a ∉ seen) →
      dedupAux seen l = l := by
  induction l with
  | nil => intro seen _ _; rfl
  | cons a t ih =>
    intro seen hnd hdis
    rw [List.nodup_cons] at hnd
    rw [dedupAux, if_neg (hdis a (List.mem_cons_self a t))]
    congr 1
    refine ih (a :: seen) hnd.2 ?_
    intro b hb hbs
    rcases List.mem_cons.mp hbs with h | h
    · exact hnd.1 (h ▸ hb)
    · exact hdis b (List.mem_cons_of_mem _ hb) h

theorem dedupKeepFirst_eq_self {α : Type} [DecidableEq α] (l : List α)
    (h : l.Nodup) : dedupKeepFirst l = l :=
  dedupAux_eq_self l [] h (by simp)

theorem fillZero_eq_self (rows : List (List Value))
    (h : ∀ r ∈ rows, ∀ v ∈ r, v ≠ Value.null) : fillZero rows = rows := by
  rw [fillZero]
  have : rows.map (fun r => r.map (fun v => if isNullVal v then Value.num 0 else v)) =
      rows.map id := by
    apply List.map_congr_left
    intro r hr
    have : r.map (fun v => if isNullVal v then Value.num 0 else v) = r.map id := by
      apply List.map_congr_left
      intro v hv
      simp [isNullVal_eq_false v (h r hr v hv)]
    simpa using this
  simpa using this

theorem length_coerceRowFold (idxs : List Nat) (r : List Value) :
    (coerceRowFold r idxs).length = r.length := by
  induction idxs generalizing r with
  | nil => rfl
  | cons i rest ih =>
    have hstep : coerceRowFold r (i :: rest) =
        coerceRowFold (r.set i (coerceValue (cellAt r i))) rest := rfl
    rw [hstep, ih, List.length_set]

theorem cellAt_set_coerce (r : List Value) (i : Nat) :
    cellAt (r.set i (coerceValue (cellAt r i))) i = coerceValue (cellAt r i) := by
  by_cases h : i < r.length
  · exact getD_set_self r i _ _ h
  · rw [set_of_length_le r i _ (le_of_not_lt h)]
    have hd : cellAt r i = Value.null :=
      List.getD_eq_default r _ (le_of_not_lt h)
    rw [hd]
    rfl

theorem cellAt_coerceRowFold (idxs : List Nat) (r : List Value) (j : Nat)
    (hnd : idxs.Nodup) :
    cellAt (coerceRowFold r idxs) j =
      if j ∈ idxs then coerceValue (cellAt r j) else cellAt r j := by
  induction idxs generalizing r with
  | nil => simp [coerceRowFold]
  | cons i rest ih =>
    rw [List.nodup_cons] at hnd
    have hstep : coerceRowFold r (i :: rest) =
        coerceRowFold (r.set i (coerceValue (cellAt r i))) rest := rfl
    rw [hstep, ih _ hnd.2]
    by_cases hji : j = i
    · subst hji
      rw [if_neg hnd.1, if_pos (List.mem_cons_self j rest)]
      exact cellAt_set_coerce r j
    · have hset : cellAt (r.set i (coerceValue (cellAt r i))) j = cellAt r j :=
        getD_set_ne r i j _ _ (fun h => hji h.symm)
      by_cases hjr : j ∈ rest
      · rw [if_pos hjr, if_pos (List.mem_cons_of_mem _ hjr), hset]
      · rw [if_neg hjr, if_neg (by simp [List.mem_cons, hji, hjr]), hset]

theorem dateObjectCols_nodup (df : Frame) : (dateObjectCols df).Nodup :=
  (List.nodup_range _).filter _

theorem mem_dateObjectCols (df : Frame) (i : Nat) :
    i ∈ dateObjectCols df ↔
      i < df.columns.length ∧
      containsSub (strLower (df.columns.getD i "")) "date" = true ∧
      isObjectCol (colCells df.rows i) = true := by
  rw [dateObjectCols, List.mem_filter, List.mem_range, Bool.and_eq_true]

theorem clean_rows_ne_nil (df : Frame) :
    ∀ r ∈ (clean_dataframe df).rows, r ≠ [] := by
  intro r hr
  have hr2 : r ∈ fillZero (dropAllNullRows df.rows) :=
    dedupAux_subset _ [] r hr
  rw [fillZero, List.mem_map] at hr2
  obtain ⟨r1, hr1, rfl⟩ := hr2
  rw [dropAllNullRows, List.mem_filter] at hr1
  intro hnil
  rw [List.map_eq_nil_iff] at hnil
  subst hnil
  simp at hr1

theorem cleanStage_rows_ne_nil (df : Frame) :
    ∀ r ∈ (cleanStage df).rows, r ≠ [] := by
  intro r hr
  have hrows : (cleanStage df).rows =
      (clean_dataframe df).rows.map
        (fun r => coerceRowFold r (dateObjectCols (clean_dataframe df))) := rfl
  rw [hrows, List.mem_map] at hr
  obtain ⟨r0, hr0, rfl⟩ := hr
  intro hnil
  have hlen := length_coerceRowFold (dateObjectCols (clean_dataframe df)) r0
  rw [hnil] at hlen
  have hne := clean_rows_ne_nil df r0 hr0
  cases r0 with
  | nil => exact hne rfl
  | cons a t => simp at hlen

/-- C2 (amended): the cleaning stage is idempotent on every dataset whose
cleaned result contains no missing values and no duplicate rows.  (Date
coercion, which runs after the fill and the dedup, can introduce missing
markers and newly-equal rows, and on those datasets a second pass changes
the result; see the counterexample.) -/
theorem C02_cleaning_idempotent (df : Frame)
    (h1 : ∀ r ∈ (cleanStage df).rows, ∀ v ∈ r, v ≠ Value.null)
    (h2 : List.Nodup (cleanStage df).rows) :
    cleanStage (cleanStage df) = cleanStage df := by
  have hne := cleanStage_rows_ne_nil df
  have hdrop : dropAllNullRows (cleanStage df).rows = (cleanStage df).rows := by
    rw [dropAllNullRows, List.filter_eq_self]
    intro r hr
    rcases r with _ | ⟨v, t⟩
    · exact absurd rfl (hne _ hr)
    · have hv := h1 _ hr v (List.mem_cons_self v t)
      simp [isNullVal_eq_false v hv]
  have hfill : fillZero (cleanStage df).rows = (cleanStage df).rows :=
    fillZero_eq_self _ h1
  have hdedup : dedupKeepFirst (cleanStage df).rows = (cleanStage df).rows :=
    dedupKeepFirst_eq_self _ h2
  have hclean : clean_dataframe (cleanStage df) = cleanStage df := by
    rw [clean_dataframe, hdrop, hfill, hdedup]
  have hdoc : dateObjectCols (cleanStage df) = [] := by
    rw [dateObjectCols, List.filter_eq_nil_iff]
    intro i hi hcontra
    rw [Bool.and_eq_true] at hcontra
    obtain ⟨hdate, hobj⟩ := hcontra
    rw [isObjectCol, List.any_eq_true] at hobj
    obtain ⟨v, hv, hstr⟩ := hobj
    rw [colCells, List.mem_map] at hv
    obtain ⟨r, hrow, rfl⟩ := hv
    have hrows : (cleanStage df).rows =
        (clean_dataframe df).rows.map
          (fun r => coerceRowFold r (dateObjectCols (clean_dataframe df))) := rfl
    rw [hrows, List.mem_map] at hrow
    obtain ⟨r0, hr0, rfl⟩ := hrow
    rw [cellAt_coerceRowFold _ _ _ (dateObjectCols_nodup _)] at hstr
    by_cases hmem : i ∈ dateObjectCols (clean_dataframe df)
    · rw [if_pos hmem] at hstr
      rw [coerceValue_not_str] at hstr
      exact Bool.false_ne_true hstr
    · rw [if_neg hmem] at hstr
      apply hmem
      rw [mem_dateObjectCols]
      refine ⟨List.mem_range.mp hi, hdate, ?_⟩
      rw [isObjectCol, List.any_eq_true]
      refine ⟨cellAt r0 i, ?_, hstr⟩
      rw [colCells, List.mem_map]
      exact ⟨r0, hr0, rfl⟩
  calc cleanStage (cleanStage df)
      = correct_data_types (clean_dataframe (cleanStage df)) := rfl
    _ = correct_data_types (cleanStage df) := by rw [hclean]
    _ = cleanStage df := by
        rw [correct_data_types, hdoc]
        have hfold : (fun r => coerceRowFold r ([] : List Nat)) =
            fun r : List Value => r := rfl
        rw [hfold, List.map_id']

/-- Witness for the amended C2 at a dataset whose cleaned result is
null-free and duplicate-free. -/
theorem C02_witness :
    cleanStage (cleanStage ⟨["views"], [[Value.num 1], [Value.num 2]]⟩) =
      cleanStage ⟨["views"], [[Value.num 1], [Value.num 2]]⟩ :=
  C02_cleaning_idempotent ⟨["views"], [[Value.num 1], [Value.num 2]]⟩
    (by decide) (by decide)

/-- Counterexample to C2 as stated: a youtube-style table with an
unparseable value in a date-named column.  The first pass coerces it to the
missing marker; the second pass then drops the row, so
`clean(clean(D)) ≠ clean(D)`. -/
theorem C02_counterexample :
    cleanStage (cleanStage ⟨["date"], [[Value.str "garbage"]]⟩) ≠
      cleanStage ⟨["date"], [[Value.str "garbage"]]⟩ := by decide

/-- C4 (amended): after cleaning, for every *object-dtype* (string-holding)
column whose name contains "date" case-insensitively, every cell has been
coerced by `pd.to_datetime(·, errors='coerce')`: the result holds only
timestamps and missing markers, and every unparseable string became the
missing marker (not zero, and without raising).  Columns of non-object
dtype are skipped by `select_dtypes(include=['object'])`, which is the
correction to the claim's "regardless of the column's value type". -/
theorem C04_date_coercion (df : Frame) (i : Nat)
    (hi : i < df.columns.length)
    (hdate : containsSub (strLower (df.columns.getD i "")) "date" = true)
    (hobj : isObjectCol (colCells (clean_dataframe df).rows i) = true) :
    colCells (cleanStage df).rows i =
      (colCells (clean_dataframe df).rows i).map coerceValue
    ∧ (∀ v ∈ colCells (cleanStage df).rows i,
        (∃ t, v = Value.date t) ∨ v = Value.null)
    ∧ (∀ s : String, parseDate s = none →
        coerceValue (Value.str s) = Value.null ∧ Value.null ≠ Value.num 0) := by
  have hmem : i ∈ dateObjectCols (clean_dataframe df) := by
    rw [mem_dateObjectCols]
    exact ⟨hi, hdate, hobj⟩
  have hcells : colCells (cleanStage df).rows i =
      (colCells (clean_dataframe df).rows i).map coerceValue := by
    have hrows : (cleanStage df).rows =
        (clean_dataframe df).rows.map
          (fun r => coerceRowFold r (dateObjectCols (clean_dataframe df))) := rfl
    rw [colCells, colCells, hrows, List.map_map, List.map_map]
    apply List.map_congr_left
    intro r hr
    have := cellAt_coerceRowFold (dateObjectCols (clean_dataframe df)) r i
      (dateObjectCols_nodup _)
    rw [if_pos hmem] at this
    exact this
  refine ⟨hcells, ?_, ?_⟩
  · intro v hv
    rw [hcells, List.mem_map] at hv
    obtain ⟨w, _, rfl⟩ := hv
    cases w with
    | num q => exact Or.inl ⟨⌊q⌋, rfl⟩
    | str s =>
      rw [coerceValue]
      cases parseDate s with
      | none => exact Or.inr rfl
      | some t => exact Or.inl ⟨t, rfl⟩
    | date t => exact Or.inl ⟨t, rfl⟩
    | null => exact Or.inr rfl
    | nonfinite => exact Or.inr rfl
  · intro s hs
    rw [coerceValue, hs]
    exact ⟨rfl, by decide⟩

/-- Witness for the amended C4: a date column with one parseable and one
unparseable string; the former becomes a timestamp, the latter the missing
marker. -/
theorem C04_witness :
    colCells (cleanStage ⟨["date"],
        [[Value.str "2020-01-03"], [Value.str "bad"]]⟩).rows 0 =
      [Value.date 20200103, Value.null] := by
  have h := C04_date_coercion
    ⟨["date"], [[Value.str "2020-01-03"], [Value.str "bad"]]⟩ 0
    (by decide) (by decide) (by decide)
  rw [h.1]
  decide

/-- Counterexample to C4 as stated: a numeric (non-object) column named
`date` is not coerced at all — its value stays the number 5, which is
neither a timestamp nor the missing marker. -/
theorem C04_counterexample :
    colCells (cleanStage ⟨["date"], [[Value.num 5]]⟩).rows 0 = [Value.num 5]
    ∧ (∀ t, Value.num 5 ≠ Value.date t) ∧ Value.num 5 ≠ Value.null := by
  refine ⟨by decide, ?_, by decide⟩
  intro t
  simp

theorem setCol_columns_mem (df : Frame) (c c' : String) (vals : List Value)
    (h : c' ∈ df.columns) : c' ∈ (setCol df c vals).columns := by
  rw [setCol]
  cases hidx : idxOf? c df.columns with
  | some i => exact h
  | none => exact List.mem_append_left _ h

/-- C5 (amended): the tiktok ratio features are added for every dataset
whose name contains "tiktok" *and does not contain "youtube"* — the source
dispatches with `elif`, so a name containing both takes the youtube branch
only.  On such datasets, `likes_per_follower` and `shares_per_follower`
are the guarded ratios over `replace(followers, 0 -> 1)`. -/
theorem C05_tiktok_ratios (df : Frame) (name : String)
    (hwf : ∀ r ∈ df.rows, r.length = df.columns.length)
    (ht : containsSub name "tiktok" = true)
    (hy : containsSub name "youtube" = false) :
    (∀ ls fs : List ℚ,
      getCol df "likes" = some (ls.map Value.num) →
      getCol df "followers" = some (fs.map Value.num) →
      getCol (feature_engineering df name) "likes_per_follower" =
        some (List.zipWith
          (fun a b => Value.num (a / (if b = 0 then 1 else b))) ls fs))
    ∧ (∀ ss fs : List ℚ,
      getCol df "shares" = some (ss.map Value.num) →
      getCol df "followers" = some (fs.map Value.num) →
      getCol (feature_engineering df name) "shares_per_follower" =
        some (List.zipWith
          (fun a b => Value.num (a / (if b = 0 then 1 else b))) ss fs)) := by
  have hyp : ¬ (containsSub name "youtube" = true) := by simp [hy]
  constructor
  · intro ls fs hl hf
    have hlm := mem_of_getCol_some df "likes" _ hl
    have hfm := mem_of_getCol_some df "followers" _ hf
    have hg1 : ("likes" ∈ df.columns ∧ "followers" ∈ df.columns) := ⟨hlm, hfm⟩
    have hlen1 : (safeRatioVals df "likes" "followers").length = df.rows.length :=
      safeRatioVals_length df _ _ hlm hfm
    rw [feature_engineering, if_neg hyp, if_pos ht, tiktokFeatures]
    simp only [if_pos hg1]
    set d1 := setCol df "likes_per_follower" (safeRatioVals df "likes" "followers")
    have hwf1 : ∀ r ∈ d1.rows, r.length = d1.columns.length :=
      setCol_wf df _ _ hwf
    have hbase : getCol d1 "likes_per_follower" =
        some (safeRatioVals df "likes" "followers") :=
      getCol_setCol_self df _ _ hwf hlen1
    have hstep : getCol
        (if "shares" ∈ d1.columns ∧ "followers" ∈ d1.columns then
          setCol d1 "shares_per_follower" (safeRatioVals d1 "shares" "followers")
        else d1) "likes_per_follower" = getCol d1 "likes_per_follower" := by
      by_cases hg2 : ("shares" ∈ d1.columns ∧ "followers" ∈ d1.columns)
      · rw [if_pos hg2]
        exact getCol_setCol_ne d1 "shares_per_follower" "likes_per_follower" _ hwf1
          (safeRatioVals_length d1 _ _ hg2.1 hg2.2) (by decide)
      · rw [if_neg hg2]
    rw [hstep, hbase, safeRatioVals_num df _ _ ls fs hl hf]
  · intro ss fs hs hf
    have hsm := mem_of_getCol_some df "shares" _ hs
    have hfm := mem_of_getCol_some df "followers" _ hf
    rw [feature_engineering, if_neg hyp, if_pos ht, tiktokFeatures]
    by_cases hg1 : ("likes" ∈ df.columns ∧ "followers" ∈ df.columns)
    · simp only [if_pos hg1]
      set d1 := setCol df "likes_per_follower" (safeRatioVals df "likes" "followers")
        with hd1
      have hlen1 : (safeRatioVals df "likes" "followers").length = df.rows.length :=
        safeRatioVals_length df _ _ hg1.1 hg1.2
      have hwf1 : ∀ r ∈ d1.rows, r.length = d1.columns.length :=
        setCol_wf df _ _ hwf
      have hrows1 : d1.rows.length = df.rows.length :=
        setCol_rows_length df _ _ hlen1
      have hs1 : getCol d1 "shares" = some (ss.map Value.num) := by
        rw [hd1, getCol_setCol_ne df _ _ _ hwf hlen1 (by decide)]
        exact hs
      have hf1 : getCol d1 "followers" = some (fs.map Value.num) := by
        rw [hd1, getCol_setCol_ne df _ _ _ hwf hlen1 (by decide)]
        exact hf
      have hsm1 := mem_of_getCol_some d1 "shares" _ hs1
      have hfm1 := mem_of_getCol_some d1 "followers" _ hf1
      have hg2 : ("shares" ∈ d1.columns ∧ "followers" ∈ d1.columns) := ⟨hsm1, hfm1⟩
      rw [if_pos hg2]
      rw [getCol_setCol_self d1 _ _ hwf1 (safeRatioVals_length d1 _ _ hsm1 hfm1)]
      rw [safeRatioVals_num d1 _ _ ss fs hs1 hf1]
    · simp only [if_neg hg1]
      have hg2 : ("shares" ∈ df.columns ∧ "followers" ∈ df.columns) := ⟨hsm, hfm⟩
      rw [if_pos hg2]
      rw [getCol_setCol_self df _ _ hwf (safeRatioVals_length df _ _ hsm hfm)]
      rw [safeRatioVals_num df _ _ ss fs hs hf]

/-- Witness for the amended C5: a pure tiktok table gets both guarded
ratio columns. -/
theorem C05_witness :
    getCol (feature_engineering
      ⟨["likes", "followers", "shares"],
       [[Value.num 10, Value.num 0, Value.num 6],
        [Value.num 30, Value.num 5, Value.num 10]]⟩
      "tiktok_data") "likes_per_follower" =
    some [Value.num 10, Value.num 6] := by
  have h := (C05_tiktok_ratios
    ⟨["likes", "followers", "shares"],
     [[Value.num 10, Value.num 0, Value.num 6],
      [Value.num 30, Value.num 5, Value.num 10]]⟩
    "tiktok_data" (by decide) (by decide) (by decide)).1
    [10, 30] [0, 5] (by decide) (by decide)
  rw [h]
  norm_num [List.zipWith]

/-- Counterexample to C5 as stated: the name `youtube_tiktok_data` contains
"tiktok", the table has `likes` and `followers`, yet no `likes_per_follower`
column is produced — the `elif` sends it down the youtube branch. -/
theorem C05_counterexample :
    "likes_per_follower" ∉ (feature_engineering
      ⟨["likes", "followers"], [[Value.num 10, Value.num 5]]⟩
      "youtube_tiktok_data").columns := by decide

/-! ### Ingestion (01_ingest_data.py lines 52-63) -/

/-- Drop the last-dot extension, as `os.path.splitext(file)[0]` behaves on
the `*.csv` names the ingestion loop sees (splitext's special case for
dotless or leading-dot names never arises: the loop filters on
`endswith('.csv')`). -/
def dropLastExt (cs : List Char) : List Char :=
  let r := cs.reverse
  let j := r.findIdx (fun c => c == '.')
  if j < r.length then (r.drop (j + 1)).reverse else cs

/-- `os.path.splitext(file)[0].lower()`: the lowercased filename stem used
as the table name (01_ingest_data.py line 60). -/
def stemLower (f : String) : String :=
  String.mk ((dropLastExt f.data).map Char.toLower)

/-- The Store: the MySQL database as a name-addressed table registry. -/
def Store : Type := String → Option Frame

/-- `to_sql(name, ..., if_exists='replace')`: replace-or-create write. -/
def storeSet (s : Store) (k : String) (v : Frame) : Store :=
  fun k' => if k' = k then some v else s k'

/-- The ingestion loop of 01_ingest_data.py lines 54-63 over the directory
listing.  Each entry is a filename with the outcome of `pd.read_csv` on it
(`some` frame, or `none` for a parse error).  On success the frame is
written under the lowercased stem with replace semantics; a parse failure
raises out of the loop — the source has no try/except — so the run stops
there.  The Boolean records whether the loop ran to completion. -/
def ingestFiles : List (String × Option Frame) → Store → Store × Bool
  | [], s => (s, true)
  | (f, pf) :: rest, s =>
    match pf with
    | some df => ingestFiles rest (storeSet s (stemLower f) df)
    | none => (s, false)

example : stemLower "Youtube_Trends.csv" = "youtube_trends" := by decide
example : stemLower "a.b.csv" = "a.b" := by decide

/-- The sequence of (table name, frame) writes a run performs: the parsed
prefix up to the first failing file. -/
def writesOf : List (String × Option Frame) → List (String × Frame)
  | [] => []
  | (f, some df) :: rest => (stemLower f, df) :: writesOf rest
  | (_, none) :: _ => []

def applyWrites (w : List (String × Frame)) (s : Store) : Store :=
  w.foldl (fun s kv => storeSet s kv.1 kv.2) s

/-- The value the last write to a key leaves, if any. -/
def lastWrite : List (String × Frame) → String → Option Frame
  | [], _ => none
  | kv :: rest, k =>
    match lastWrite rest k with
    | some v => some v
    | none => if kv.1 = k then some kv.2 else none

theorem ingestFiles_store (files : List (String × Option Frame)) (s : Store) :
    (ingestFiles files s).1 = applyWrites (writesOf files) s := by
  induction files generalizing s with
  | nil => rfl
  | cons fp rest ih =>
    obtain ⟨f, pf⟩ := fp
    cases pf with
    | some df => exact ih (storeSet s (stemLower f) df)
    | none => rfl

theorem ingestFiles_flag (files : List (String × Option Frame)) (s s' : Store) :
    (ingestFiles files s).2 = (ingestFiles files s').2 := by
  induction files generalizing s s' with
  | nil => rfl
  | cons fp rest ih =>
    obtain ⟨f, pf⟩ := fp
    cases pf with
    | some df => exact ih _ _
    | none => rfl

theorem applyWrites_lookup (w : List (String × Frame)) (s : Store) (k : String) :
    applyWrites w s k =
      match lastWrite w k with
      | some v => some v
      | none => s k := by
  induction w generalizing s with
  | nil => rfl
  | cons kv rest ih =>
    have hstep : applyWrites (kv :: rest) s = applyWrites rest (storeSet s kv.1 kv.2) :=
      rfl
    rw [hstep, ih, lastWrite]
    cases lastWrite rest k with
    | some v => rfl
    | none =>
      by_cases hk : kv.1 = k
      · simp [storeSet, hk]
      · have hk2 : ¬ k = kv.1 := fun h => hk h.symm
        simp [storeSet, hk, hk2]

/-- C6 (amended): a parsing failure on an individual source file *aborts*
ingestion at that file: the files before it have been written to the
Store, the failing file and every later file are not ingested, and the
run does not complete.  (The source loop has no try/except, so the claim's
log-and-skip behaviour does not hold; see the counterexample.) -/
theorem C06_parse_failure_aborts (pre : List (String × Option Frame))
    (f : String) (post : List (String × Option Frame)) (s : Store) :
    ingestFiles (pre ++ (f, none) :: post) s = ((ingestFiles pre s).1, false) := by
  induction pre generalizing s with
  | nil => rfl
  | cons gp rest ih =>
    obtain ⟨g, pg⟩ := gp
    cases pg with
    | some df => exact ih (storeSet s (stemLower g) df)
    | none => rfl

/-- Counterexample to C6 as stated: with files `a.csv` (parses), `bad.csv`
(parse failure), `c.csv` (parses), the file after the failure is never
ingested and the run does not complete — the failure is not skipped. -/
theorem C06_counterexample :
    (ingestFiles
        [("a.csv", some ⟨["x"], [[Value.num 1]]⟩),
         ("bad.csv", (none : Option Frame)),
         ("c.csv", some ⟨["x"], [[Value.num 2]]⟩)]
        (fun _ => none)).1 "c" = none
    ∧ (ingestFiles
        [("a.csv", some ⟨["x"], [[Value.num 1]]⟩),
         ("bad.csv", (none : Option Frame)),
         ("c.csv", some ⟨["x"], [[Value.num 2]]⟩)]
        (fun _ => none)).2 = false
    ∧ (ingestFiles
        [("a.csv", some ⟨["x"], [[Value.num 1]]⟩),
         ("bad.csv", (none : Option Frame)),
         ("c.csv", some ⟨["x"], [[Value.num 2]]⟩)]
        (fun _ => none)).1 "a" = some ⟨["x"], [[Value.num 1]]⟩ := by
  refine ⟨?_, rfl, ?_⟩ <;> decide

/-- C8: the table name of an ingested file is its lowercased stem
(`Youtube_Trends.csv` becomes `youtube_trends`), writes replace any
existing table of that name, and re-running ingestion over the same
directory listing reproduces the identical Store state and outcome — no
accumulation. -/
theorem C08_ingest_idempotent :
    stemLower "Youtube_Trends.csv" = "youtube_trends"
    ∧ (∀ (f : String) (df : Frame) (s : Store),
        (ingestFiles [(f, some df)] s).1 = storeSet s (stemLower f) df)
    ∧ (∀ (files : List (String × Option Frame)) (s : Store),
        ingestFiles files (ingestFiles files s).1 = ingestFiles files s) := by
  refine ⟨by decide, fun f df s => rfl, ?_⟩
  intro files s
  have hflag : (ingestFiles files (ingestFiles files s).1).2 =
      (ingestFiles files s).2 :=
    ingestFiles_flag files _ s
  have hstore : (ingestFiles files (ingestFiles files s).1).1 =
      (ingestFiles files s).1 := by
    rw [ingestFiles_store, ingestFiles_store]
    funext k
    rw [applyWrites_lookup, applyWrites_lookup]
    cases hl : lastWrite (writesOf files) k with
    | some v => rfl
    | none => rfl
  exact Prod.ext hstore hflag

/-! ### Aggregator (03_analyze_data.py) -/

def isNonfiniteVal : Value → Bool
  | Value.nonfinite => true
  | _ => false

/-- Pandas `Series.mean()` with its default `skipna=True`: missing cells
are dropped, but non-finite cells are not — an infinity enters the sum, so
a column containing any non-finite cell has a non-finite mean (`inf`,
`-inf`, or NaN for a mixed-sign sum; the sign-less `nonfinite` abstracts
all of these, exactly as it abstracts the sign of the division result that
produces them).  Otherwise the mean is the sum of the finite numeric cells
over their count, and NaN (`null`) when there are none.  The claims take
means only of numeric columns, so stray string cells are never relied
upon. -/
def meanVal (vals : List Value) : Value :=
  if vals.any isNonfiniteVal then Value.nonfinite
  else
    let nums := vals.filterMap (fun v =>
      match v with
      | Value.num q => some q
      | _ => none)
    if nums.length = 0 then Value.null
    else Value.num (nums.sum / (nums.length : ℚ))

example : meanVal [Value.num 1, Value.nonfinite] = Value.nonfinite := by decide
example : meanVal [Value.null] = Value.null := by decide
example : meanVal [Value.num 3, Value.null, Value.num 5] = Value.num 4 := by
  norm_num [meanVal, isNonfiniteVal, List.filterMap]

/-- The feature-engineering pass of 03_analyze_data.py lines 127-137:
when `views`, `likes` and `comments` all exist, assign
`engagement_rate = (likes + comments) / views` — with *no* zero guard,
unlike 02_process_data.py. -/
def engagementStep (df : Frame) : Frame :=
  if "views" ∈ df.columns ∧ "likes" ∈ df.columns ∧ "comments" ∈ df.columns then
    setCol df "engagement_rate"
      (List.zipWith valDiv
        (List.zipWith valAdd (colVals df "likes") (colVals df "comments"))
        (colVals df "views"))
  else df

/-- C3: the Aggregator's `engagement_rate` is the unguarded elementwise
`(likes + comments) / views`: a row with zero views and a nonzero numerator
yields the non-finite value, which is not a number — unlike the Feature
Engineer's guarded ratios. -/
theorem C03_unguarded_engagement_rate (df : Frame) (ls cs vs : List ℚ)
    (hwf : ∀ r ∈ df.rows, r.length = df.columns.length)
    (hl : getCol df "likes" = some (ls.map Value.num))
    (hc : getCol df "comments" = some (cs.map Value.num))
    (hv : getCol df "views" = some (vs.map Value.num)) :
    getCol (engagementStep df) "engagement_rate" =
      some (List.zipWith
        (fun p v => if v = 0 then
            (if p = 0 then Value.null else Value.nonfinite)
          else Value.num (p / v))
        (List.zipWith (fun a b => a + b) ls cs) vs)
    ∧ ∀ q : ℚ, Value.nonfinite ≠ Value.num q := by
  have hlm := mem_of_getCol_some df "likes" _ hl
  have hcm := mem_of_getCol_some df "comments" _ hc
  have hvm := mem_of_getCol_some df "views" _ hv
  have hg : ("views" ∈ df.columns ∧ "likes" ∈ df.columns ∧
      "comments" ∈ df.columns) := ⟨hvm, hlm, hcm⟩
  constructor
  · rw [engagementStep, if_pos hg]
    have hlen : (List.zipWith valDiv
        (List.zipWith valAdd (colVals df "likes") (colVals df "comments"))
        (colVals df "views")).length = df.rows.length := by
      simp [List.length_zipWith, colVals_length_of_mem df _ hlm,
        colVals_length_of_mem df _ hcm, colVals_length_of_mem df _ hvm]
    rw [getCol_setCol_self df _ _ hwf hlen]
    rw [colVals_eq_of_getCol df _ _ hl, colVals_eq_of_getCol df _ _ hc,
      colVals_eq_of_getCol df _ _ hv]
    have hadd : List.zipWith valAdd (ls.map Value.num) (cs.map Value.num) =
        (List.zipWith (fun a b => a + b) ls cs).map Value.num := by
      rw [List.zipWith_map, List.map_zipWith]
      exact zipWith_fun_congr _ _ (fun a b => rfl) ls cs
    rw [hadd, List.zipWith_map]
    exact congrArg some (zipWith_fun_congr _ _ (fun p v => rfl) _ _)
  · intro q
    simp

/-- Witness for C3: Example 2 of the spec, likes=10, comments=5, views=0
yields a non-finite engagement rate. -/
theorem C03_witness :
    getCol (engagementStep
      ⟨["likes", "comments", "views"],
       [[Value.num 10, Value.num 5, Value.num 0]]⟩) "engagement_rate" =
    some [Value.nonfinite] := by
  have h := C03_unguarded_engagement_rate
    ⟨["likes", "comments", "views"],
     [[Value.num 10, Value.num 5, Value.num 0]]⟩
    [10] [5] [0] (by decide) (by decide) (by decide) (by decide)
  rw [h.1]
  norm_num [List.zipWith]

theorem setCol_mem_iff (df : Frame) (c c' : String) (vals : List Value)
    (hne : c' ≠ c) : c' ∈ (setCol df c vals).columns ↔ c' ∈ df.columns := by
  rw [setCol]
  cases hidx : idxOf? c df.columns with
  | some i => exact Iff.rfl
  | none =>
    constructor
    · intro h
      rcases List.mem_append.mp h with h | h
      · exact h
      · simp at h
        exact absurd h hne
    · exact List.mem_append_left _

/-- The youtube branch leaves every column other than its two derived
names untouched. -/
theorem getCol_youtubeFeatures_other (df : Frame) (c : String)
    (hwf : ∀ r ∈ df.rows, r.length = df.columns.length)
    (h1 : c ≠ "views_per_subscriber") (h2 : c ≠ "like_rate") :
    getCol (youtubeFeatures df) c = getCol df c := by
  rw [youtubeFeatures]
  by_cases hg1 : ("views" ∈ df.columns ∧ "subscribers" ∈ df.columns)
  · simp only [if_pos hg1]
    set d1 := setCol df "views_per_subscriber" (safeRatioVals df "views" "subscribers")
      with hd1
    have hlen1 : (safeRatioVals df "views" "subscribers").length = df.rows.length :=
      safeRatioVals_length df _ _ hg1.1 hg1.2
    have hwf1 : ∀ r ∈ d1.rows, r.length = d1.columns.length :=
      setCol_wf df _ _ hwf
    have hstep1 : getCol d1 c = getCol df c := by
      rw [hd1]
      exact getCol_setCol_ne df _ _ _ hwf hlen1 h1
    by_cases hg2 : ("likes" ∈ d1.columns ∧ "views" ∈ d1.columns)
    · rw [if_pos hg2,
        getCol_setCol_ne d1 _ _ _ hwf1 (safeRatioVals_length d1 _ _ hg2.1 hg2.2) h2,
        hstep1]
    · rw [if_neg hg2, hstep1]
  · simp only [if_neg hg1]
    by_cases hg2 : ("likes" ∈ df.columns ∧ "views" ∈ df.columns)
    · rw [if_pos hg2]
      exact getCol_setCol_ne df _ _ _ hwf
        (safeRatioVals_length df _ _ hg2.1 hg2.2) h2
    · rw [if_neg hg2]

/-- The tiktok branch leaves every column other than its two derived
names untouched. -/
theorem getCol_tiktokFeatures_other (df : Frame) (c : String)
    (hwf : ∀ r ∈ df.rows, r.length = df.columns.length)
    (h1 : c ≠ "likes_per_follower") (h2 : c ≠ "shares_per_follower") :
    getCol (tiktokFeatures df) c = getCol df c := by
  rw [tiktokFeatures]
  by_cases hg1 : ("likes" ∈ df.columns ∧ "followers" ∈ df.columns)
  · simp only [if_pos hg1]
    set d1 := setCol df "likes_per_follower" (safeRatioVals df "likes" "followers")
      with hd1
    have hlen1 : (safeRatioVals df "likes" "followers").length = df.rows.length :=
      safeRatioVals_length df _ _ hg1.1 hg1.2
    have hwf1 : ∀ r ∈ d1.rows, r.length = d1.columns.length :=
      setCol_wf df _ _ hwf
    have hstep1 : getCol d1 c = getCol df c := by
      rw [hd1]
      exact getCol_setCol_ne df _ _ _ hwf hlen1 h1
    by_cases hg2 : ("shares" ∈ d1.columns ∧ "followers" ∈ d1.columns)
    · rw [if_pos hg2,
        getCol_setCol_ne d1 _ _ _ hwf1 (safeRatioVals_length d1 _ _ hg2.1 hg2.2) h2,
        hstep1]
    · rw [if_neg hg2, hstep1]
  · simp only [if_neg hg1]
    by_cases hg2 : ("shares" ∈ df.columns ∧ "followers" ∈ df.columns)
    · rw [if_pos hg2]
      exact getCol_setCol_ne df _ _ _ hwf
        (safeRatioVals_length df _ _ hg2.1 hg2.2) h2
    · rw [if_neg hg2]

/-- `groupby('category').agg({views: mean, likes: mean})` of
03_analyze_data.py lines 163-175, guarded on the three columns; group keys
are the non-missing category values (pandas drops NaN group keys).  Pandas
emits groups sorted by key; the model keeps first-occurrence order, which
carries the same groups — no stated property depends on group order. -/
def categoryAggregation (df : Frame) : Option Frame :=
  if "category" ∈ df.columns ∧ "views" ∈ df.columns ∧ "likes" ∈ df.columns then
    let triples := (colVals df "category").zip
      ((colVals df "views").zip (colVals df "likes"))
    let keys := dedupKeepFirst ((colVals df "category").filter
      (fun v => !(isNullVal v)))
    some ⟨["category", "average_views", "average_likes"],
      keys.map (fun c =>
        let grp := triples.filter (fun t => t.1 = c)
        [c, meanVal (grp.map (fun t => t.2.1)),
         meanVal (grp.map (fun t => t.2.2))])⟩
  else none

/-- C9: feature engineering and the category aggregation never raise when a
required source column is absent (both are total functions here, as in the
guarded source): the derived column is simply not produced — the frame's
column of that name, if any, is untouched — and the aggregation emits
nothing for that dataset. -/
theorem C09_schema_guard (df : Frame) (name : String)
    (hwf : ∀ r ∈ df.rows, r.length = df.columns.length) :
    (("views" ∉ df.columns ∨ "subscribers" ∉ df.columns) →
      getCol (feature_engineering df name) "views_per_subscriber" =
        getCol df "views_per_subscriber")
    ∧ (("likes" ∉ df.columns ∨ "views" ∉ df.columns) →
      getCol (feature_engineering df name) "like_rate" = getCol df "like_rate")
    ∧ (("likes" ∉ df.columns ∨ "followers" ∉ df.columns) →
      getCol (feature_engineering df name) "likes_per_follower" =
        getCol df "likes_per_follower")
    ∧ (("shares" ∉ df.columns ∨ "followers" ∉ df.columns) →
      getCol (feature_engineering df name) "shares_per_follower" =
        getCol df "shares_per_follower")
    ∧ (("category" ∉ df.columns ∨ "views" ∉ df.columns ∨ "likes" ∉ df.columns) →
      categoryAggregation df = none) := by
  refine ⟨?_, ?_, ?_, ?_, ?_⟩
  · intro habs
    rw [feature_engineering]
    by_cases hY : (containsSub name "youtube" = true)
    · rw [if_pos hY, youtubeFeatures]
      have hg1 : ¬("views" ∈ df.columns ∧ "subscribers" ∈ df.columns) := by
        tauto
      simp only [if_neg hg1]
      by_cases hg2 : ("likes" ∈ df.columns ∧ "views" ∈ df.columns)
      · rw [if_pos hg2]
        exact getCol_setCol_ne df _ _ _ hwf
          (safeRatioVals_length df _ _ hg2.1 hg2.2) (by decide)
      · rw [if_neg hg2]
    · rw [if_neg hY]
      by_cases hT : (containsSub name "tiktok" = true)
      · rw [if_pos hT]
        exact getCol_tiktokFeatures_other df _ hwf (by decide) (by decide)
      · rw [if_neg hT]
  · intro habs
    rw [feature_engineering]
    by_cases hY : (containsSub name "youtube" = true)
    · rw [if_pos hY, youtubeFeatures]
      by_cases hg1 : ("views" ∈ df.columns ∧ "subscribers" ∈ df.columns)
      · simp only [if_pos hg1]
        set d1 := setCol df "views_per_subscriber"
          (safeRatioVals df "views" "subscribers") with hd1
        have hlen1 : (safeRatioVals df "views" "subscribers").length =
            df.rows.length := safeRatioVals_length df _ _ hg1.1 hg1.2
        have hg2 : ¬("likes" ∈ d1.columns ∧ "views" ∈ d1.columns) := by
          rw [hd1, setCol_mem_iff df _ _ _ (by decide),
            setCol_mem_iff df _ _ _ (by decide)]
          tauto
        rw [if_neg hg2, hd1]
        exact getCol_setCol_ne df _ _ _ hwf hlen1 (by decide)
      · simp only [if_neg hg1]
        have hg2 : ¬("likes" ∈ df.columns ∧ "views" ∈ df.columns) := by tauto
        rw [if_neg hg2]
    · rw [if_neg hY]
      by_cases hT : (containsSub name "tiktok" = true)
      · rw [if_pos hT]
        exact getCol_tiktokFeatures_other df _ hwf (by decide) (by decide)
      · rw [if_neg hT]
  · intro habs
    rw [feature_engineering]
    by_cases hY : (containsSub name "youtube" = true)
    · rw [if_pos hY]
      exact getCol_youtubeFeatures_other df _ hwf (by decide) (by decide)
    · rw [if_neg hY]
      by_cases hT : (containsSub name "tiktok" = true)
      · rw [if_pos hT, tiktokFeatures]
        have hg1 : ¬("likes" ∈ df.columns ∧ "followers" ∈ df.columns) := by
          tauto
        simp only [if_neg hg1]
        by_cases hg2 : ("shares" ∈ df.columns ∧ "followers" ∈ df.columns)
        · rw [if_pos hg2]
          exact getCol_setCol_ne df _ _ _ hwf
            (safeRatioVals_length df _ _ hg2.1 hg2.2) (by decide)
        · rw [if_neg hg2]
      · rw [if_neg hT]
  · intro habs
    rw [feature_engineering]
    by_cases hY : (containsSub name "youtube" = true)
    · rw [if_pos hY]
      exact getCol_youtubeFeatures_other df _ hwf (by decide) (by decide)
    · rw [if_neg hY]
      by_cases hT : (containsSub name "tiktok" = true)
      · rw [if_pos hT, tiktokFeatures]
        by_cases hg1 : ("likes" ∈ df.columns ∧ "followers" ∈ df.columns)
        · simp only [if_pos hg1]
          set d1 := setCol df "likes_per_follower"
            (safeRatioVals df "likes" "followers") with hd1
          have hlen1 : (safeRatioVals df "likes" "followers").length =
              df.rows.length := safeRatioVals_length df _ _ hg1.1 hg1.2
          have hg2 : ¬("shares" ∈ d1.columns ∧ "followers" ∈ d1.columns) := by
            rw [hd1, setCol_mem_iff df _ _ _ (by decide),
              setCol_mem_iff df _ _ _ (by decide)]
            tauto
          rw [if_neg hg2, hd1]
          exact getCol_setCol_ne df _ _ _ hwf hlen1 (by decide)
        · simp only [if_neg hg1]
          have hg2 : ¬("shares" ∈ df.columns ∧ "followers" ∈ df.columns) := by
            tauto
          rw [if_neg hg2]
      · rw [if_neg hT]
  · intro habs
    rw [categoryAggregation, if_neg (by tauto)]

/-- Witness for C9: a one-column dataset gets neither derived column nor a
category aggregate, without error. -/
theorem C09_witness :
    getCol (feature_engineering ⟨["views"], [[Value.num 1]]⟩ "youtube_data")
        "views_per_subscriber" =
      getCol ⟨["views"], [[Value.num 1]]⟩ "views_per_subscriber"
    ∧ categoryAggregation ⟨["views"], [[Value.num 1]]⟩ = none := by
  have h := C09_schema_guard ⟨["views"], [[Value.num 1]]⟩ "youtube_data"
    (by decide)
  exact ⟨h.1 (Or.inr (by decide)), h.2.2.2.2 (Or.inl (by decide))⟩

/-- Lookup in the loaded table map (`dataframes` is a Python dict keyed by
table name; keys are unique, lookup is by name). -/
def lookupFrame (dfs : List (String × Frame)) (k : String) : Option Frame :=
  (dfs.find? (fun p => p.1 == k)).map (fun p => p.2)

/-- The comparative-analysis block of 03_analyze_data.py lines 179-199:
exactly when tables named `youtube_data` and `tiktok_data` both exist and
both carry an `engagement_rate` column, emit the two-row comparison of the
platforms' mean engagement rates; otherwise only a skip message is printed
— zero rows, no error.  The value models the rows of `comparison_df`. -/
def comparativeAnalysis (dfs : List (String × Frame)) : List (List Value) :=
  match lookupFrame dfs "youtube_data", lookupFrame dfs "tiktok_data" with
  | some yt, some tt =>
    if "engagement_rate" ∈ yt.columns ∧ "engagement_rate" ∈ tt.columns then
      [[Value.str "YouTube", meanVal (colVals yt "engagement_rate")],
       [Value.str "TikTok", meanVal (colVals tt "engagement_rate")]]
    else []
  | _, _ => []

/-- Index of the first column whose lowercased name contains "date"
(03_analyze_data.py lines 142-146 break at the first hit). -/
def firstDateCol (df : Frame) : Option Nat :=
  (List.range df.columns.length).find? (fun i =>
    containsSub (strLower (df.columns.getD i "")) "date")

def insertSorted (x : ℤ) : List ℤ → List ℤ
  | [] => [x]
  | y :: ys => if x ≤ y then x :: y :: ys else y :: insertSorted x ys

def sortInts : List ℤ → List ℤ
  | [] => []
  | x :: xs => insertSorted x (sortInts xs)

/-- The coerced date key of each row paired with its `views` cell. -/
def dateViewPairs (df : Frame) (i : Nat) : List (Value × Value) :=
  (df.rows.map (fun r => coerceValue (cellAt r i))).zip (colVals df "views")

/-- The time-series block of 03_analyze_data.py lines 141-160: locate the
first date-named column; when it exists alongside `views`, coerce it with
`pd.to_datetime(errors='coerce')` and group by the coerced value, taking
the mean of `views` per group.  Pandas `groupby` silently drops rows whose
key is NaT and emits groups sorted by key ascending; dates in this model
are day-granular, so `.dt.date` is the identity. -/
def timeSeriesTrend (df : Frame) : Option (List (ℤ × Value)) :=
  match firstDateCol df with
  | none => none
  | some i =>
    if "views" ∈ df.columns then
      let pairs := dateViewPairs df i
      let dates := pairs.filterMap (fun p =>
        match p.1 with
        | Value.date t => some t
        | _ => none)
      let keys := sortInts (dedupKeepFirst dates)
      some (keys.map (fun d =>
        (d, meanVal ((pairs.filter (fun p => p.1 = Value.date d)).map
          (fun p => p.2)))))
    else none

theorem mem_insertSorted (x : ℤ) (l : List ℤ) (a : ℤ) :
    a ∈ insertSorted x l ↔ a = x ∨ a ∈ l := by
  induction l with
  | nil => simp [insertSorted]
  | cons y ys ih =>
    rw [insertSorted]
    by_cases hxy : x ≤ y
    · simp [if_pos hxy]
    · simp only [if_neg hxy, List.mem_cons, ih]
      tauto

theorem mem_sortInts (l : List ℤ) (a : ℤ) : a ∈ sortInts l ↔ a ∈ l := by
  induction l with
  | nil => exact Iff.rfl
  | cons x xs ih =>
    rw [sortInts, mem_insertSorted, ih, List.mem_cons]

theorem mem_dedupAux_or {α : Type} [DecidableEq α] (l : List α) :
    ∀ (seen : List α) (a : α), a ∈ l → a ∈ dedupAux seen l ∨ a ∈ seen := by
  induction l with
  | nil => intro seen a h; simp at h
  | cons r rs ih =>
    intro seen a h
    rw [dedupAux]
    by_cases hr : r ∈ seen
    · rw [if_pos hr]
      rcases List.mem_cons.mp h with h | h
      · exact Or.inr (h ▸ hr)
      · exact ih seen a h
    · rw [if_neg hr]
      rcases List.mem_cons.mp h with h | h
      · exact Or.inl (h ▸ List.mem_cons_self r _)
      · rcases ih (r :: seen) a h with h2 | h2
        · exact Or.inl (List.mem_cons_of_mem _ h2)
        · rcases List.mem_cons.mp h2 with h3 | h3
          · exact Or.inl (h3 ▸ List.mem_cons_self r _)
          · exact Or.inr h3

theorem mem_dedupKeepFirst {α : Type} [DecidableEq α] (l : List α) (a : α) :
    a ∈ dedupKeepFirst l ↔ a ∈ l := by
  constructor
  · exact fun h => dedupAux_subset l [] a h
  · intro h
    rcases mem_dedupAux_or l [] a h with h2 | h2
    · exact h2
    · simp at h2

/-- C7: the cross-platform comparison table is emitted (nonempty) iff the
tables named exactly `youtube_data` and `tiktok_data` both exist and both
carry an `engagement_rate` column, in which case it is the two-row table
of each platform's mean engagement rate; otherwise it has zero rows (and,
the functions being total, no error is raised). -/
theorem C07_comparison_table (dfs : List (String × Frame)) :
    (comparativeAnalysis dfs ≠ [] ↔
      ∃ yt tt, lookupFrame dfs "youtube_data" = some yt ∧
        lookupFrame dfs "tiktok_data" = some tt ∧
        "engagement_rate" ∈ yt.columns ∧ "engagement_rate" ∈ tt.columns)
    ∧ (∀ yt tt, lookupFrame dfs "youtube_data" = some yt →
        lookupFrame dfs "tiktok_data" = some tt →
        "engagement_rate" ∈ yt.columns → "engagement_rate" ∈ tt.columns →
        comparativeAnalysis dfs =
          [[Value.str "YouTube", meanVal (colVals yt "engagement_rate")],
           [Value.str "TikTok", meanVal (colVals tt "engagement_rate")]]) := by
  constructor
  · cases hyt : lookupFrame dfs "youtube_data" with
    | none => simp [comparativeAnalysis, hyt]
    | some yt =>
      cases htt : lookupFrame dfs "tiktok_data" with
      | none => simp [comparativeAnalysis, hyt, htt]
      | some tt =>
        by_cases hg : ("engagement_rate" ∈ yt.columns ∧
            "engagement_rate" ∈ tt.columns)
        · simp only [comparativeAnalysis, hyt, htt, if_pos hg]
          constructor
          · intro _
            exact ⟨yt, tt, rfl, rfl, hg.1, hg.2⟩
          · intro _
            simp
        · simp only [comparativeAnalysis, hyt, htt, if_neg hg]
          constructor
          · intro h
            exact absurd rfl h
          · rintro ⟨yt', tt', hy', ht', h1, h2⟩
            rw [Option.some_inj] at hy' ht'
            subst hy'
            subst ht'
            exact absurd ⟨h1, h2⟩ hg
  · intro yt tt hyt htt h1 h2
    simp [comparativeAnalysis, hyt, htt, h1, h2]

/-- Exercise of C7 at concrete inputs: present on both sides with the
column, the table is the two-row comparison — including when an
`engagement_rate` column carries the non-finite cell of the unguarded
division, whose mean pandas propagates as non-finite; with `tiktok_data`
absent the table is empty. -/
theorem C07_examples :
    comparativeAnalysis
      [("youtube_data", ⟨["engagement_rate"], [[Value.num 1]]⟩),
       ("tiktok_data", ⟨["engagement_rate"], [[Value.num 2]]⟩)] =
      [[Value.str "YouTube",
        meanVal (colVals ⟨["engagement_rate"], [[Value.num 1]]⟩ "engagement_rate")],
       [Value.str "TikTok",
        meanVal (colVals ⟨["engagement_rate"], [[Value.num 2]]⟩ "engagement_rate")]]
    ∧ comparativeAnalysis
      [("youtube_data", ⟨["engagement_rate"], [[Value.nonfinite]]⟩),
       ("tiktok_data", ⟨["engagement_rate"], [[Value.nonfinite]]⟩)] =
      [[Value.str "YouTube", Value.nonfinite],
       [Value.str "TikTok", Value.nonfinite]]
    ∧ comparativeAnalysis
      [("youtube_data", ⟨["engagement_rate"], [[Value.num 1]]⟩)] = [] := by
  refine ⟨?_, ?_, rfl⟩
  · exact (C07_comparison_table _).2 _ _ rfl rfl
      (by decide) (by decide)
  · exact ((C07_comparison_table
      [("youtube_data", ⟨["engagement_rate"], [[Value.nonfinite]]⟩),
       ("tiktok_data", ⟨["engagement_rate"], [[Value.nonfinite]]⟩)]).2
      ⟨["engagement_rate"], [[Value.nonfinite]]⟩
      ⟨["engagement_rate"], [[Value.nonfinite]]⟩ rfl rfl
      (by decide) (by decide)).trans (by decide)

/-- C10: in the time-series trend output, a pair `(d, avg)` occurs iff
some row's date cell coerces to `d`, and then `avg` is the mean of `views`
over exactly the rows whose date coerces to `d`; a row whose date value
fails to coerce (becoming the missing marker) matches no date key, so it
is excluded from every group. -/
theorem C10_timeseries_drops_unparsed (df : Frame) (i : Nat)
    (ts : List (ℤ × Value))
    (hdc : firstDateCol df = some i)
    (hts : timeSeriesTrend df = some ts) :
    (∀ d avg, (d, avg) ∈ ts ↔
      ((∃ r ∈ df.rows, coerceValue (cellAt r i) = Value.date d) ∧
        avg = meanVal (((dateViewPairs df i).filter
          (fun p => p.1 = Value.date d)).map (fun p => p.2))))
    ∧ (∀ p ∈ dateViewPairs df i, p.1 = Value.null →
        ∀ d, p ∉ (dateViewPairs df i).filter (fun p => p.1 = Value.date d)) := by
  simp only [timeSeriesTrend, hdc] at hts
  by_cases hviews : ("views" ∈ df.columns)
  · rw [if_pos hviews, Option.some_inj] at hts
    have hlenv : (colVals df "views").length = df.rows.length :=
      colVals_length_of_mem df _ hviews
    constructor
    · intro d avg
      constructor
      · intro hmem
        rw [← hts] at hmem
        rw [List.mem_map] at hmem
        obtain ⟨d', hd', heq⟩ := hmem
        rw [Prod.mk.injEq] at heq
        obtain ⟨rfl, rfl⟩ := heq
        refine ⟨?_, rfl⟩
        rw [mem_sortInts, mem_dedupKeepFirst, List.mem_filterMap] at hd'
        obtain ⟨p, hp, hpd⟩ := hd'
        have hp1 : p.1 = Value.date d' := by
          cases h1 : p.1 <;> rw [h1] at hpd <;> simp at hpd
          rw [hpd]
        rw [dateViewPairs] at hp
        have hmem1 : p.1 ∈ df.rows.map (fun r => coerceValue (cellAt r i)) :=
          (List.of_mem_zip hp).1
        rw [List.mem_map] at hmem1
        obtain ⟨r, hr, hre⟩ := hmem1
        exact ⟨r, hr, hre.trans hp1⟩
      · rintro ⟨⟨r, hr, hre⟩, rfl⟩
        rw [← hts, List.mem_map]
        refine ⟨d, ?_, rfl⟩
        rw [mem_sortInts, mem_dedupKeepFirst, List.mem_filterMap]
        obtain ⟨k, hk, hrk⟩ := List.getElem_of_mem hr
        have hklt : k < (dateViewPairs df i).length := by
          rw [dateViewPairs, List.length_zip, List.length_map, hlenv]
          simp [hk]
        refine ⟨(dateViewPairs df i)[k], List.getElem_mem hklt, ?_⟩
        have hfst : (dateViewPairs df i)[k].1 = Value.date d := by
          simp only [dateViewPairs, List.getElem_zip, List.getElem_map]
          rw [hrk, hre]
        rw [hfst]
    · intro p hp hnull d
      intro hmem
      rw [List.mem_filter] at hmem
      have := hmem.2
      rw [hnull] at this
      simp at this
  · rw [if_neg hviews] at hts
    exact absurd hts (by simp)

/-- Witness for C10: three rows, two parsing to the same date and one
unparseable; the output groups only the parsed rows and the mean views is
taken over them alone. -/
theorem C10_witness :
    firstDateCol ⟨["upload_date", "views"],
      [[Value.str "2020-01-02", Value.num 10],
       [Value.str "bad", Value.num 100],
       [Value.str "2020-01-02", Value.num 20]]⟩ = some 0
    ∧ ((20200102 : ℤ), meanVal [Value.num 10, Value.num 20]) ∈
      (timeSeriesTrend ⟨["upload_date", "views"],
        [[Value.str "2020-01-02", Value.num 10],
         [Value.str "bad", Value.num 100],
         [Value.str "2020-01-02", Value.num 20]]⟩).getD [] := by
  refine ⟨by decide, ?_⟩
  have hts : timeSeriesTrend ⟨["upload_date", "views"],
      [[Value.str "2020-01-02", Value.num 10],
       [Value.str "bad", Value.num 100],
       [Value.str "2020-01-02", Value.num 20]]⟩ =
      some [((20200102 : ℤ), meanVal [Value.num 10, Value.num 20])] := rfl
  have h := C10_timeseries_drops_unparsed _ 0 _ (by decide) hts
  rw [hts]
  exact ((h.1 20200102 (meanVal [Value.num 10, Value.num 20])).mpr
    ⟨⟨[Value.str "2020-01-02", Value.num 10], by decide, by decide⟩,
     congrArg meanVal (by decide)⟩)
